import Mathlib

/-!
Verification of the QuorumUX cross-run comparison core: a shallow embedding of
the issue-reconciliation and score-adjustment engine (src/commands/compare.ts,
src/utils/scoring.ts, src/pipeline/report.ts generateStableId), with theorems
settling the specification claims.

Numbers are modelled with exact rationals; JavaScript Math.round is modelled
as floor (x + 1/2), which matches its half-up behaviour. Strings are handled
through their character lists so that every definition reduces in the kernel.
-/

attribute [local semireducible] Rat.add Rat.mul Rat.sub Rat.inv Rat.ofScientific

-- ─── JavaScript-style string helpers (structural, kernel-reducible) ─────────

def isWs (c : Char) : Bool := c.isWhitespace

/-- JS String.prototype.trim: drop surrounding whitespace. -/
def jsTrim (s : String) : String :=
  String.mk (((s.data.dropWhile isWs).reverse.dropWhile isWs).reverse)

/-- JS String.prototype.toLowerCase (ASCII range). -/
def jsToLower (s : String) : String := String.mk (s.data.map Char.toLower)

def wordsOfAux : List Char → List Char → List String
  | [], acc => if acc.isEmpty then [] else [String.mk acc.reverse]
  | c :: rest, acc =>
    if isWs c then
      if acc.isEmpty then wordsOfAux rest []
      else String.mk acc.reverse :: wordsOfAux rest []
    else wordsOfAux rest (c :: acc)

/-- JS s.split(whitespace run).filter(Boolean): the nonempty whitespace-separated
tokens of a string, in order. -/
def wordsOf (s : String) : List String := wordsOfAux s.data []

-- ─── Title normalization (compare.ts normalizeTitle) ────────────────────────

/-- The fixed filler-adverb stop set of compare.ts. -/
def FILLER_ADVERBS : List String :=
  ["consistently", "permanently", "completely", "inappropriately", "repeatedly",
   "unexpectedly", "excessively", "extremely", "significantly", "severely",
   "very", "highly", "particularly", "notably", "somewhat", "slightly",
   "relatively", "quite"]

/-- The fixed synonym table of compare.ts. -/
def SYNONYM_MAP : List (String × String) :=
  [("latency", "performance"), ("freeze", "block"), ("frozen", "block"),
   ("stuck", "block"), ("inaccessible", "not accessible"), ("navigation", "nav"),
   ("obscures", "overlaps"), ("exceeds", "slow"), ("delay", "slow"),
   ("insufficient", "missing"), ("tracking", "analytics"),
   ("stepper", "indicator"), ("progress", "step")]

def lookupSynonym (w : String) : Option String :=
  (SYNONYM_MAP.find? (fun p => p.1 == w)).map Prod.snd

/-- The leading-severity-marker strip of normalizeTitle: the replace of the
case-insensitive pattern "whitespace*, optional bracket, P then 0 or 1 or 2,
optional bracket, whitespace*, optional colon or em-dash or hyphen,
whitespace*" anchored at the start; when the mandatory "P digit" part is
absent the title is returned unchanged. -/
def stripSeverityMarker (s : String) : String :=
  let afterWs := s.data.dropWhile isWs
  let afterBracket := if afterWs.head? = some '[' then afterWs.tail else afterWs
  match afterBracket with
  | p :: d :: rest =>
    if (p = 'P' ∨ p = 'p') ∧ (d = '0' ∨ d = '1' ∨ d = '2') then
      let r1 := if rest.head? = some ']' then rest.tail else rest
      let r2 := r1.dropWhile isWs
      let r3 := if r2.head? = some ':' ∨ r2.head? = some '—' ∨ r2.head? = some '-'
        then r2.tail else r2
      String.mk (r3.dropWhile isWs)
    else s
  | _ => s

/-- compare.ts normalizeTitle: strip severity marker, lowercase, split on
whitespace, drop filler adverbs, map synonyms, rejoin with single spaces. -/
def normalizeTitle (title : String) : String :=
  let t := jsToLower (stripSeverityMarker title)
  let words := wordsOf t
  let normalized :=
    (words.filter (fun w => decide (w ∉ FILLER_ADVERBS))).map
      (fun w => (lookupSynonym w).getD w)
  jsTrim (String.intercalate " " normalized)

-- ─── Jaccard similarity (compare.ts jaccardSimilarity) ──────────────────────

/-- The set of normalized tokens a title contributes to jaccardSimilarity. -/
def tokenSet (s : String) : Finset String := (wordsOf (normalizeTitle s)).toFinset

/-- compare.ts jaccardSimilarity: token-set intersection over union on
normalized titles, with the two-empty-sets and one-empty-set edge cases. -/
def jaccardSimilarity (a b : String) : ℚ :=
  let setA := tokenSet a
  let setB := tokenSet b
  if setA.card = 0 ∧ setB.card = 0 then 1
  else if setA.card = 0 ∨ setB.card = 0 then 0
  else
    let intersection := (setA ∩ setB).card
    (intersection : ℚ) / ((setA.card : ℚ) + (setB.card : ℚ) - (intersection : ℚ))

example : jaccardSimilarity "" "" = 1 := by decide
example : jaccardSimilarity "x" "" = 0 := by decide
example : jaccardSimilarity "LOGIN BUTTON" "login button" = 1 := by decide
example : jaccardSimilarity "alpha beta gamma" "alpha beta delta" = 1 / 2 := by decide
example : normalizeTitle "[P0] Login latency extremely slow" = "login performance slow" := by decide

-- ─── Data model (types.ts as consumed by the comparison core) ───────────────

inductive Severity
  | P0
  | P1
  | P2
deriving DecidableEq

inductive IssueSource
  | app
  | testInfra
deriving DecidableEq

inductive IssueType
  | consensus
  | videoOnly
  | modelUnique
deriving DecidableEq

/-- An issue as it sits in one of the three Synthesis lists; only the fields
the comparison core reads are modelled. -/
structure SynIssue where
  id : String
  title : String
  severity : Severity
  category : Option String
  source : Option IssueSource
deriving DecidableEq

structure OverallAssessment where
  uxScore : ℚ
  launchReadiness : String
deriving DecidableEq

structure Synthesis where
  consensusIssues : List SynIssue
  videoOnlyIssues : List SynIssue
  modelUniqueIssues : List SynIssue
  overallAssessment : OverallAssessment
deriving DecidableEq

/-- compare.ts CompareIssue. -/
structure CompareIssue where
  id : String
  title : String
  severity : Severity
  type : IssueType
  source : Option IssueSource
  category : Option String
deriving DecidableEq

inductive MatchMethod
  | exactId
  | fuzzy
deriving DecidableEq

inductive SeverityChange
  | improved
  | regressed
  | unchanged
deriving DecidableEq

/-- compare.ts PersistingIssue. -/
structure PersistingIssue where
  baselineId : String
  currentId : String
  title : String
  baselineSeverity : Severity
  currentSeverity : Severity
  severityChange : SeverityChange
  matchMethod : MatchMethod
  matchConfidence : Option ℤ
deriving DecidableEq

/-- compare.ts PersistingVariant. -/
structure PersistingVariant where
  issue : CompareIssue
  similarTo : CompareIssue
  similarityScore : ℤ
deriving DecidableEq

structure SeverityCounts where
  P0 : ℕ
  P1 : ℕ
  P2 : ℕ
deriving DecidableEq

/-- compare.ts CompareResult. -/
structure CompareResult where
  scoreDelta : ℚ
  baselineScore : ℚ
  currentScore : ℚ
  adjustedDelta : Option ℚ
  baselineReadiness : String
  currentReadiness : String
  resolvedIssues : List CompareIssue
  newIssues : List CompareIssue
  persistingIssues : List PersistingIssue
  persistingVariants : List PersistingVariant
  regressions : List PersistingIssue
  scoreContext : String
  severityDistribution : SeverityCounts × SeverityCounts
deriving DecidableEq

structure CompareOptions where
  variantThreshold : Option ℚ
deriving DecidableEq

-- ─── Scoring (scoring.ts) ───────────────────────────────────────────────────

/-- JS Math.round: round half away from zero on the positives, i.e. floor of
x + 1/2 (which also matches Math.round on the negatives). -/
def jsRound (q : ℚ) : ℤ := ⌊q + 1 / 2⌋

/-- scoring.ts SEVERITY_WEIGHT. -/
def SEVERITY_WEIGHT : Severity → ℚ
  | .P0 => 10
  | .P1 => 5
  | .P2 => 2

def TEST_INFRA_DISCOUNT : ℚ := 0.25

/-- scoring.ts normalizeScore: scores at most 10 are legacy 0-10, times 10. -/
def normalizeScore (score : ℚ) : ℚ := if score ≤ 10 then score * 10 else score

def allIssuesOf (s : Synthesis) : List SynIssue :=
  s.consensusIssues ++ s.videoOnlyIssues ++ s.modelUniqueIssues

def isTestInfra (i : SynIssue) : Bool := decide (i.source = some .testInfra)

/-- The single accumulation loop of calculateAdjustedScore: total weight over
all issues, and the weight of the test-infra ones. -/
def weightTotals (issues : List SynIssue) : ℚ × ℚ :=
  issues.foldl
    (fun acc i =>
      let w := SEVERITY_WEIGHT i.severity
      (acc.1 + w, if isTestInfra i then acc.2 + w else acc.2))
    (0, 0)

/-- scoring.ts calculateAdjustedScore: none when no test-infra issue exists;
otherwise the raw score with the test-infra share of the severity weight
discounted to 25%. -/
def calculateAdjustedScore (synthesis : Synthesis) : Option ℚ :=
  let allIssues := allIssuesOf synthesis
  let testInfraIssues := allIssues.filter isTestInfra
  if testInfraIssues.length = 0 then none
  else
    let rawScore := normalizeScore synthesis.overallAssessment.uxScore
    let pointsLost := 100 - rawScore
    if pointsLost ≤ 0 then some rawScore
    else
      let totals := weightTotals allIssues
      let totalWeight := totals.1
      let testInfraWeight := totals.2
      if totalWeight = 0 then some rawScore
      else
        let adjustedTotal := (totalWeight - testInfraWeight) + testInfraWeight * TEST_INFRA_DISCOUNT
        let adjustedPointsLost := pointsLost * (adjustedTotal / totalWeight)
        some ((jsRound (100 - adjustedPointsLost) : ℤ) : ℚ)

example : calculateAdjustedScore
    { consensusIssues := [], videoOnlyIssues := [], modelUniqueIssues := [],
      overallAssessment := { uxScore := 50, launchReadiness := "r" } } = none := by decide
example : calculateAdjustedScore
    { consensusIssues :=
        [{ id := "a", title := "Real bug", severity := .P0, category := some "Function", source := some .app },
         { id := "b", title := "Test env", severity := .P0, category := some "Function", source := some .testInfra }],
      videoOnlyIssues := [], modelUniqueIssues := [],
      overallAssessment := { uxScore := 50, launchReadiness := "r" } } = some 69 := by decide

-- ─── Issue matching (compare.ts matchIssues) ────────────────────────────────

/-- compare.ts SEVERITY_ORDER. -/
def SEVERITY_ORDER : Severity → ℕ
  | .P0 => 0
  | .P1 => 1
  | .P2 => 2

/-- A matched pair as accumulated by matchIssues. -/
structure MatchedPair where
  baseline : CompareIssue
  current : CompareIssue
  method : MatchMethod
  confidence : Option ℤ
deriving DecidableEq

/-- The consumed-index bookkeeping of matchIssues: matchedBaseline and
matchedCurrent index sets plus the matched list. -/
structure MatchState where
  mB : Finset ℕ
  mC : Finset ℕ
  matched : List MatchedPair

/-- One pass-1 step: for baseline entry (bi, b) with a QUX- stable id, find the
first not-yet-matched current issue with the identical id string. -/
def pass1Step (cs : List (ℕ × CompareIssue)) (st : MatchState) (p : ℕ × CompareIssue) :
    MatchState :=
  if p.1 ∈ st.mB then st
  else if !(("QUX-".data).isPrefixOf p.2.id.data) then st
  else
    match cs.find? (fun q => decide (q.1 ∉ st.mC) && decide (q.2.id = p.2.id)) with
    | some q =>
      { mB := insert p.1 st.mB, mC := insert q.1 st.mC,
        matched := st.matched ++ [⟨p.2, q.2, .exactId, none⟩] }
    | none => st

/-- A pass-2 (or variant) candidate: indices into the two arrays, the issues at
those indices, and their title similarity. -/
structure Candidate where
  bi : ℕ
  b : CompareIssue
  ci : ℕ
  c : CompareIssue
  similarity : ℚ
deriving DecidableEq

/-- Pass-2 candidate generation: every remaining baseline-current pair whose
similarity clears 0.6, or clears 0.4 with agreeing defined category and
agreeing severity. -/
def pass2Candidates (bs cs : List (ℕ × CompareIssue)) (st : MatchState) : List Candidate :=
  bs.flatMap (fun p =>
    if p.1 ∈ st.mB then []
    else
      cs.filterMap (fun q =>
        if q.1 ∈ st.mC then none
        else
          let sim := jaccardSimilarity p.2.title q.2.title
          let sameCategory := p.2.category.isSome ∧ p.2.category = q.2.category
          let sameSeverity := p.2.severity = q.2.severity
          if 0.6 < sim ∨ (sameCategory ∧ sameSeverity ∧ 0.4 < sim) then
            some ⟨p.1, p.2, q.1, q.2, sim⟩
          else none))

/-- Stable insertion placing x before the first element it strictly precedes
under the comparator; models the stable JS Array.prototype.sort. -/
def insertBy (lt : α → α → Bool) (x : α) : List α → List α
  | [] => [x]
  | y :: ys => if lt y x then y :: insertBy lt x ys else x :: y :: ys

/-- Stable sort by descending similarity, as the JS comparator
the comparator on b.similarity - a.similarity produces. -/
def sortByDescSimilarity (l : List Candidate) : List Candidate :=
  l.foldr (insertBy (fun x y => decide (y.similarity < x.similarity))) []

/-- One greedy-assignment step of pass 2: commit the candidate when neither
side is consumed yet; confidence = round (similarity * 100). -/
def greedyStep (st : MatchState) (cand : Candidate) : MatchState :=
  if cand.bi ∈ st.mB ∨ cand.ci ∈ st.mC then st
  else
    { mB := insert cand.bi st.mB, mC := insert cand.ci st.mC,
      matched := st.matched ++ [⟨cand.b, cand.c, .fuzzy, some (jsRound (cand.similarity * 100))⟩] }

structure MatchOutcome where
  matched : List MatchedPair
  unmatchedBaseline : List CompareIssue
  unmatchedCurrent : List CompareIssue
deriving DecidableEq

/-- The state after pass 1 of matchIssues. -/
def pass1State (baselineIssues currentIssues : List CompareIssue) : MatchState :=
  baselineIssues.enum.foldl (pass1Step currentIssues.enum) ⟨∅, ∅, []⟩

/-- The state after both matching passes of matchIssues. -/
def matchState (baselineIssues currentIssues : List CompareIssue) : MatchState :=
  let st1 := pass1State baselineIssues currentIssues
  let cands := sortByDescSimilarity
    (pass2Candidates baselineIssues.enum currentIssues.enum st1)
  cands.foldl greedyStep st1

/-- compare.ts matchIssues: pass 1 exact-id matching over QUX- prefixed ids,
then pass 2 fuzzy title matching, greedy in descending similarity order. -/
def matchIssues (baselineIssues currentIssues : List CompareIssue) : MatchOutcome :=
  let st2 := matchState baselineIssues currentIssues
  { matched := st2.matched
    unmatchedBaseline :=
      (baselineIssues.enum.filter (fun p => decide (p.1 ∉ st2.mB))).map Prod.snd
    unmatchedCurrent :=
      (currentIssues.enum.filter (fun p => decide (p.1 ∉ st2.mC))).map Prod.snd }

example :
    (matchIssues
      [⟨"QUX-aabbccdd", "Login broken", .P0, .consensus, some .app, none⟩]
      [⟨"QUX-aabbccdd", "Totally different words", .P0, .consensus, some .app, none⟩]).matched
    = [⟨⟨"QUX-aabbccdd", "Login broken", .P0, .consensus, some .app, none⟩,
        ⟨"QUX-aabbccdd", "Totally different words", .P0, .consensus, some .app, none⟩,
        .exactId, none⟩] := by decide

example :
    (matchIssues
      [⟨"ISSUE-001", "Mobile goal creation flow", .P0, .consensus, some .app, some "functional"⟩]
      [⟨"ISSUE-005", "Goal creation blocked on mobile", .P0, .consensus, some .app, some "functional"⟩]).matched.length
    = 1 := by decide

example :
    (matchIssues
      [⟨"ISSUE-001", "Login button broken", .P0, .consensus, some .app, none⟩]
      [⟨"ISSUE-002", "Signup form validation", .P1, .consensus, some .app, none⟩]).matched
    = [] := by decide

-- ─── Core comparison (compare.ts compareSyntheses) ──────────────────────────

/-- compare.ts collectIssues: flatten the three lists; consensus issues keep
their category, video-only and model-unique ones enter with no category;
source defaults to app. -/
def collectIssues (synthesis : Synthesis) : List CompareIssue :=
  (synthesis.consensusIssues.map (fun i =>
    { id := i.id, title := i.title, severity := i.severity,
      type := .consensus, source := some (i.source.getD .app), category := i.category }))
  ++ (synthesis.videoOnlyIssues.map (fun i =>
    { id := i.id, title := i.title, severity := i.severity,
      type := .videoOnly, source := some (i.source.getD .app), category := none }))
  ++ (synthesis.modelUniqueIssues.map (fun i =>
    { id := i.id, title := i.title, severity := i.severity,
      type := .modelUnique, source := some (i.source.getD .app), category := none }))

/-- compare.ts compareSeverity: direction of a severity change under the fixed
ordinal P0=0, P1=1, P2=2 (higher ordinal = less severe). -/
def compareSeverity (baseline current : Severity) : SeverityChange :=
  if SEVERITY_ORDER baseline < SEVERITY_ORDER current then .improved
  else if SEVERITY_ORDER current < SEVERITY_ORDER baseline then .regressed
  else .unchanged

/-- compare.ts countSeverities. -/
def countSeverities (synthesis : Synthesis) : SeverityCounts :=
  (allIssuesOf synthesis).foldl
    (fun c i =>
      match i.severity with
      | .P0 => { c with P0 := c.P0 + 1 }
      | .P1 => { c with P1 := c.P1 + 1 }
      | .P2 => { c with P2 := c.P2 + 1 })
    ⟨0, 0, 0⟩

/-- The PersistingIssue entry built from one matched pair. -/
def toPersisting (m : MatchedPair) : PersistingIssue :=
  { baselineId := m.baseline.id, currentId := m.current.id, title := m.current.title,
    baselineSeverity := m.baseline.severity, currentSeverity := m.current.severity,
    severityChange := compareSeverity m.baseline.severity m.current.severity,
    matchMethod := m.method, matchConfidence := m.confidence }

/-- The persisting/regressions accumulation loop of compareSyntheses. -/
def buildPersisting (matched : List MatchedPair) :
    List PersistingIssue × List PersistingIssue :=
  matched.foldl
    (fun acc m =>
      let entry := toPersisting m
      (acc.1 ++ [entry],
       if entry.severityChange = .regressed then acc.2 ++ [entry] else acc.2))
    ([], [])

/-- Variant candidate generation over the leftovers of matchIssues: every
current-baseline pair whose similarity reaches the variant threshold. -/
def variantCandidates (unmatchedCurrent unmatchedBaseline : List (ℕ × CompareIssue))
    (variantThreshold : ℚ) : List Candidate :=
  unmatchedCurrent.flatMap (fun q =>
    unmatchedBaseline.filterMap (fun p =>
      let sim := jaccardSimilarity q.2.title p.2.title
      if variantThreshold ≤ sim then some ⟨p.1, p.2, q.1, q.2, sim⟩ else none))

structure VariantState where
  vB : Finset ℕ
  vC : Finset ℕ
  variants : List PersistingVariant

/-- One greedy variant-assignment step. -/
def variantStep (st : VariantState) (cand : Candidate) : VariantState :=
  if cand.bi ∈ st.vB ∨ cand.ci ∈ st.vC then st
  else
    { vB := insert cand.bi st.vB, vC := insert cand.ci st.vC,
      variants := st.variants ++
        [⟨cand.c, cand.b, jsRound (cand.similarity * 100)⟩] }

/-- The state after the greedy variant pass over the matchIssues leftovers. -/
def variantState (unmatchedCurrent unmatchedBaseline : List CompareIssue)
    (variantThreshold : ℚ) : VariantState :=
  (sortByDescSimilarity
      (variantCandidates unmatchedCurrent.enum unmatchedBaseline.enum variantThreshold)).foldl
    variantStep ⟨∅, ∅, []⟩

-- ─── Narrative (compare.ts generateScoreContext) ────────────────────────────

def isP0 (i : CompareIssue) : Bool := decide (i.severity = .P0)

/-- compare.ts generateScoreContext: the interpretive context line for the
score delta. -/
def generateScoreContext (result : CompareResult) : String :=
  if result.resolvedIssues.length = 0 ∧ result.newIssues.length = 0
      ∧ result.persistingVariants.length = 0 ∧ result.regressions.length = 0 then
    "No meaningful changes between runs"
  else
    let parts : List String := []
    let parts :=
      if 0 < result.scoreDelta then
        let resolvedP0s := result.resolvedIssues.filter isP0
        if 0 < resolvedP0s.length then
          parts ++ [toString resolvedP0s.length ++ " P0 issue"
            ++ (if 1 < resolvedP0s.length then "s" else "") ++ " resolved"]
        else parts
      else if result.scoreDelta < 0 then
        let newP0s := result.newIssues.filter isP0
        let parts :=
          if 0 < newP0s.length then
            parts ++ [toString newP0s.length ++ " new P0 issue"
              ++ (if 1 < newP0s.length then "s" else "") ++ " introduced"]
          else parts
        if 0 < result.regressions.length then
          parts ++ [toString result.regressions.length ++ " regression"
            ++ (if 1 < result.regressions.length then "s" else "")]
        else parts
      else parts
    let parts :=
      if 0 < result.persistingVariants.length then
        parts ++ [toString result.persistingVariants.length ++ " issue"
          ++ (if 1 < result.persistingVariants.length then "s" else "")
          ++ " reworded but not resolved"]
      else parts
    String.intercalate "; " parts

/-- compare.ts compareSyntheses: the pure comparison entry point. The two run
ids are carried for interface fidelity; the result does not depend on them. -/
def compareSyntheses (baseline current : Synthesis) (baselineId currentId : String)
    (options : Option CompareOptions) : CompareResult :=
  let baselineIssues := collectIssues baseline
  let currentIssues := collectIssues current
  let outcome := matchIssues baselineIssues currentIssues
  let persisting := buildPersisting outcome.matched
  let variantThreshold := (options.bind (fun o => o.variantThreshold)).getD 0.35
  let vst := variantState outcome.unmatchedCurrent outcome.unmatchedBaseline variantThreshold
  let resolvedIssues :=
    (outcome.unmatchedBaseline.enum.filter (fun p => decide (p.1 ∉ vst.vB))).map Prod.snd
  let newIssues :=
    (outcome.unmatchedCurrent.enum.filter (fun p => decide (p.1 ∉ vst.vC))).map Prod.snd
  let baselineScore := normalizeScore baseline.overallAssessment.uxScore
  let currentScore := normalizeScore current.overallAssessment.uxScore
  let baselineAdj := calculateAdjustedScore baseline
  let currentAdj := calculateAdjustedScore current
  let adjustedDelta :=
    match baselineAdj, currentAdj with
    | some b, some c => some (c - b)
    | _, _ => none
  let result : CompareResult :=
    { scoreDelta := currentScore - baselineScore
      baselineScore := baselineScore
      currentScore := currentScore
      adjustedDelta := adjustedDelta
      baselineReadiness := baseline.overallAssessment.launchReadiness
      currentReadiness := current.overallAssessment.launchReadiness
      resolvedIssues := resolvedIssues
      newIssues := newIssues
      persistingIssues := persisting.1
      persistingVariants := vst.variants
      regressions := persisting.2
      scoreContext := ""
      severityDistribution := (countSeverities baseline, countSeverities current) }
  { result with scoreContext := generateScoreContext result }

-- ─── SHA-256 (node:crypto createHash('sha256'), modelled over ℕ) ────────────

def w32 (n : ℕ) : ℕ := n % 4294967296

def rotr32 (x n : ℕ) : ℕ := w32 ((x >>> n) ||| (x <<< (32 - n)))

def not32 (x : ℕ) : ℕ := x ^^^ 4294967295

def shaCh (x y z : ℕ) : ℕ := (x &&& y) ^^^ (not32 x &&& z)

def shaMaj (x y z : ℕ) : ℕ := (x &&& y) ^^^ (x &&& z) ^^^ (y &&& z)

def bigSigma0 (x : ℕ) : ℕ := rotr32 x 2 ^^^ rotr32 x 13 ^^^ rotr32 x 22

def bigSigma1 (x : ℕ) : ℕ := rotr32 x 6 ^^^ rotr32 x 11 ^^^ rotr32 x 25

def smallSigma0 (x : ℕ) : ℕ := rotr32 x 7 ^^^ rotr32 x 18 ^^^ (x >>> 3)

def smallSigma1 (x : ℕ) : ℕ := rotr32 x 17 ^^^ rotr32 x 19 ^^^ (x >>> 10)

/-- The 64 SHA-256 round constants (the fractional parts of the cube roots of
the first 64 primes, as 32-bit words written in decimal). -/
def SHA_K : List ℕ :=
  [1116352408, 1899447441, 3049323471, 3921009573, 961987163, 1508970993,
   2453635748, 2870763221, 3624381080, 310598401, 607225278, 1426881987,
   1925078388, 2162078206, 2614888103, 3248222580, 3835390401, 4022224774,
   264347078, 604807628, 770255983, 1249150122, 1555081692, 1996064986,
   2554220882, 2821834349, 2952996808, 3210313671, 3336571891, 3584528711,
   113926993, 338241895, 666307205, 773529912, 1294757372, 1396182291,
   1695183700, 1986661051, 2177026350, 2456956037, 2730485921, 2820302411,
   3259730800, 3345764771, 3516065817, 3600352804, 4094571909, 275423344,
   430227734, 506948616, 659060556, 883997877, 958139571, 1322822218,
   1537002063, 1747873779, 1955562222, 2024104815, 2227730452, 2361852424,
   2428436474, 2756734187, 3204031479, 3329325298]

structure HashWords where
  w0 : ℕ
  w1 : ℕ
  w2 : ℕ
  w3 : ℕ
  w4 : ℕ
  w5 : ℕ
  w6 : ℕ
  w7 : ℕ

def SHA_INIT : HashWords :=
  ⟨1779033703, 3144134277, 1013904242, 2773480762,
   1359893119, 2600822924, 528734635, 1541459225⟩

/-- Big-endian bytes of an unsigned value, most significant first. -/
def bytesBE : ℕ → ℕ → List ℕ
  | 0, _ => []
  | k + 1, n => (n >>> (8 * k)) % 256 :: bytesBE k n

/-- SHA-256 padding: append 0x80, zero bytes to reach 56 mod 64, then the
bit length as 8 big-endian bytes. -/
def padMessage (msg : List ℕ) : List ℕ :=
  let len := msg.length
  let padLen := (120 - (len % 64 + 1)) % 64
  msg ++ [128] ++ List.replicate padLen 0 ++ bytesBE 8 (len * 8)

/-- Group bytes into big-endian 32-bit words. -/
def toWords : List ℕ → List ℕ
  | b0 :: b1 :: b2 :: b3 :: rest =>
    (((b0 * 256 + b1) * 256 + b2) * 256 + b3) :: toWords rest
  | _ => []

/-- Split into 64-byte chunks (fuel-driven structural recursion). -/
def toBlocksGo : ℕ → List ℕ → List (List ℕ)
  | 0, _ => []
  | _, [] => []
  | fuel + 1, l => l.take 64 :: toBlocksGo fuel (l.drop 64)

def toBlocks (l : List ℕ) : List (List ℕ) := toBlocksGo l.length l

/-- Extend the 16-word message schedule to 64 words. -/
def extendSchedule (ws : List ℕ) : List ℕ :=
  (List.range 48).foldl
    (fun ws _ =>
      let n := ws.length
      ws ++ [w32 (ws.getD (n - 16) 0 + smallSigma0 (ws.getD (n - 15) 0)
        + ws.getD (n - 7) 0 + smallSigma1 (ws.getD (n - 2) 0))])
    ws

def shaRound (k w : ℕ) (st : HashWords) : HashWords :=
  let t1 := w32 (st.w7 + bigSigma1 st.w4 + shaCh st.w4 st.w5 st.w6 + k + w)
  let t2 := w32 (bigSigma0 st.w0 + shaMaj st.w0 st.w1 st.w2)
  ⟨w32 (t1 + t2), st.w0, st.w1, st.w2, w32 (st.w3 + t1), st.w4, st.w5, st.w6⟩

def shaCompress (h : HashWords) (block : List ℕ) : HashWords :=
  let ws := extendSchedule (toWords block)
  let f := (List.range 64).foldl
    (fun st i => shaRound (SHA_K.getD i 0) (ws.getD i 0) st) h
  ⟨w32 (h.w0 + f.w0), w32 (h.w1 + f.w1), w32 (h.w2 + f.w2), w32 (h.w3 + f.w3),
   w32 (h.w4 + f.w4), w32 (h.w5 + f.w5), w32 (h.w6 + f.w6), w32 (h.w7 + f.w7)⟩

def wordBytes (w : ℕ) : List ℕ :=
  [w / 16777216 % 256, w / 65536 % 256, w / 256 % 256, w % 256]

def stateBytes (h : HashWords) : List ℕ :=
  wordBytes h.w0 ++ wordBytes h.w1 ++ wordBytes h.w2 ++ wordBytes h.w3
    ++ wordBytes h.w4 ++ wordBytes h.w5 ++ wordBytes h.w6 ++ wordBytes h.w7

/-- SHA-256 digest (32 bytes) of a byte list. -/
def sha256 (msg : List ℕ) : List ℕ :=
  stateBytes ((toBlocks (padMessage msg)).foldl shaCompress SHA_INIT)

/-- UTF-8 encoding of a code point. -/
def utf8Bytes (c : ℕ) : List ℕ :=
  if c < 128 then [c]
  else if c < 2048 then [192 + c / 64, 128 + c % 64]
  else if c < 65536 then [224 + c / 4096, 128 + c / 64 % 64, 128 + c % 64]
  else [240 + c / 262144, 128 + c / 4096 % 64, 128 + c / 64 % 64, 128 + c % 64]

def strBytes (s : String) : List ℕ := s.data.flatMap (fun ch => utf8Bytes ch.toNat)

-- ─── Stable issue ids (report.ts generateStableId) ──────────────────────────

def hexDigit (n : ℕ) : Char := if n < 10 then Char.ofNat (48 + n) else Char.ofNat (87 + n)

def byteHex (b : ℕ) : List Char := [hexDigit (b / 16 % 16), hexDigit (b % 16)]

def hexOfBytes (bs : List ℕ) : List Char := bs.flatMap byteHex

/-- report.ts generateStableId: QUX- followed by the first 8 hex characters of
the SHA-256 digest of "lowercased-trimmed-title:lowercased-trimmed-discriminator". -/
def generateStableId (title discriminator : String) : String :=
  let normalized := jsTrim (jsToLower title) ++ ":" ++ jsTrim (jsToLower discriminator)
  "QUX-" ++ String.mk ((hexOfBytes (sha256 (strBytes normalized))).take 8)

def HEX_LOWER : List Char := "0123456789abcdef".data

-- ─── Lemmas: Jaccard similarity ─────────────────────────────────────────────

lemma jaccard_eq_div (a b : String)
    (ha : (tokenSet a).card ≠ 0) (hb : (tokenSet b).card ≠ 0) :
    jaccardSimilarity a b =
      ((tokenSet a ∩ tokenSet b).card : ℚ) /
        (((tokenSet a).card : ℚ) + ((tokenSet b).card : ℚ)
          - ((tokenSet a ∩ tokenSet b).card : ℚ)) := by
  unfold jaccardSimilarity
  simp [ha, hb]

lemma jaccard_self (a : String) : jaccardSimilarity a a = 1 := by
  by_cases h : (tokenSet a).card = 0
  · unfold jaccardSimilarity
    simp [h]
  · rw [jaccard_eq_div a a h h, Finset.inter_self]
    have hc : ((tokenSet a).card : ℚ) ≠ 0 := by exact_mod_cast h
    rw [add_sub_cancel_right, div_self hc]

lemma jaccard_comm (a b : String) : jaccardSimilarity a b = jaccardSimilarity b a := by
  by_cases ha : (tokenSet a).card = 0 <;> by_cases hb : (tokenSet b).card = 0
  · unfold jaccardSimilarity; simp [ha, hb]
  · unfold jaccardSimilarity; simp [ha, hb]
  · unfold jaccardSimilarity; simp [ha, hb]
  · rw [jaccard_eq_div a b ha hb, jaccard_eq_div b a hb ha, Finset.inter_comm,
      add_comm ((tokenSet a).card : ℚ)]

lemma jaccard_nonneg (a b : String) : 0 ≤ jaccardSimilarity a b := by
  by_cases ha : (tokenSet a).card = 0 <;> by_cases hb : (tokenSet b).card = 0
  · unfold jaccardSimilarity; simp [ha, hb]
  · unfold jaccardSimilarity; simp [ha, hb]
  · unfold jaccardSimilarity; simp [ha, hb]
  · rw [jaccard_eq_div a b ha hb]
    have hia : (tokenSet a ∩ tokenSet b).card ≤ (tokenSet b).card :=
      Finset.card_le_card Finset.inter_subset_right
    have h1 : (1 : ℚ) ≤ ((tokenSet a).card : ℚ) := by
      exact_mod_cast Nat.one_le_iff_ne_zero.mpr ha
    have hden : (0 : ℚ) < ((tokenSet a).card : ℚ) + ((tokenSet b).card : ℚ)
        - ((tokenSet a ∩ tokenSet b).card : ℚ) := by
      have : ((tokenSet a ∩ tokenSet b).card : ℚ) ≤ ((tokenSet b).card : ℚ) := by
        exact_mod_cast hia
      linarith
    exact div_nonneg (by positivity) (le_of_lt hden)

lemma jaccard_le_one (a b : String) : jaccardSimilarity a b ≤ 1 := by
  by_cases ha : (tokenSet a).card = 0 <;> by_cases hb : (tokenSet b).card = 0
  · unfold jaccardSimilarity; simp [ha, hb]
  · unfold jaccardSimilarity; simp [ha, hb]
  · unfold jaccardSimilarity; simp [ha, hb]
  · rw [jaccard_eq_div a b ha hb]
    have hia : (tokenSet a ∩ tokenSet b).card ≤ (tokenSet a).card :=
      Finset.card_le_card Finset.inter_subset_left
    have hib : (tokenSet a ∩ tokenSet b).card ≤ (tokenSet b).card :=
      Finset.card_le_card Finset.inter_subset_right
    have hia' : ((tokenSet a ∩ tokenSet b).card : ℚ) ≤ ((tokenSet a).card : ℚ) := by
      exact_mod_cast hia
    have hib' : ((tokenSet a ∩ tokenSet b).card : ℚ) ≤ ((tokenSet b).card : ℚ) := by
      exact_mod_cast hib
    have h1 : (1 : ℚ) ≤ ((tokenSet a).card : ℚ) := by
      exact_mod_cast Nat.one_le_iff_ne_zero.mpr ha
    have hden : (0 : ℚ) < ((tokenSet a).card : ℚ) + ((tokenSet b).card : ℚ)
        - ((tokenSet a ∩ tokenSet b).card : ℚ) := by linarith
    rw [div_le_one hden]
    linarith

-- ─── Lemmas: adjusted score ─────────────────────────────────────────────────

lemma testInfra_filter_empty_iff (s : Synthesis) :
    (allIssuesOf s).filter isTestInfra = [] ↔
      ∀ i ∈ allIssuesOf s, i.source ≠ some .testInfra := by
  rw [List.filter_eq_nil_iff]
  constructor
  · intro h i hi hsrc
    exact h i hi (by simp [isTestInfra, hsrc])
  · intro h i hi
    simp [isTestInfra]
    exact h i hi

-- ─── Claim C5 ───────────────────────────────────────────────────────────────

/-- C5: for all strings a and b, jaccardSimilarity lies in [0, 1], is 1 on
identical inputs, and is symmetric; when both normalized token sets are empty
it is 1, when exactly one is empty it is 0; in particular it is 1 on two empty
strings and 0 on "x" versus "". -/
theorem jaccardSimilarity_bounds_self_symm (a b : String) :
    (0 ≤ jaccardSimilarity a b ∧ jaccardSimilarity a b ≤ 1)
    ∧ jaccardSimilarity a a = 1
    ∧ jaccardSimilarity a b = jaccardSimilarity b a
    ∧ ((tokenSet a).card = 0 ∧ (tokenSet b).card = 0 → jaccardSimilarity a b = 1)
    ∧ (((tokenSet a).card = 0 ∨ (tokenSet b).card = 0) →
        ¬((tokenSet a).card = 0 ∧ (tokenSet b).card = 0) → jaccardSimilarity a b = 0)
    ∧ jaccardSimilarity "" "" = 1 ∧ jaccardSimilarity "x" "" = 0 := by
  refine ⟨⟨jaccard_nonneg a b, jaccard_le_one a b⟩, jaccard_self a, jaccard_comm a b,
    ?_, ?_, by decide, by decide⟩
  · intro h
    unfold jaccardSimilarity
    simp [h.1, h.2]
  · intro h hne
    unfold jaccardSimilarity
    rcases h with h | h
    · have hb : (tokenSet b).card ≠ 0 := fun hb => hne ⟨h, hb⟩
      simp [h, hb]
    · have ha : (tokenSet a).card ≠ 0 := fun ha => hne ⟨ha, h⟩
      simp [h, ha]

-- ─── Claim C8 ───────────────────────────────────────────────────────────────

/-- C8: calculateAdjustedScore returns none exactly when no issue of the
flattened snapshot has source test-infra, and returns a number in every other
case. -/
theorem calculateAdjustedScore_none_iff (s : Synthesis) :
    (calculateAdjustedScore s = none ↔
      ∀ i ∈ allIssuesOf s, i.source ≠ some .testInfra)
    ∧ ((calculateAdjustedScore s).isSome ↔
      ∃ i ∈ allIssuesOf s, i.source = some .testInfra) := by
  have hmain : calculateAdjustedScore s = none ↔
      ∀ i ∈ allIssuesOf s, i.source ≠ some .testInfra := by
    rw [← testInfra_filter_empty_iff]
    unfold calculateAdjustedScore
    by_cases h : ((allIssuesOf s).filter isTestInfra).length = 0
    · simp only [h, if_true]
      simpa [List.length_eq_zero] using List.length_eq_zero.mp h
    · simp only [h, if_false]
      constructor
      · intro hcontra
        exfalso
        revert hcontra
        split <;> simp
        split <;> simp
      · intro hnil
        exact absurd (by simp [hnil]) h
  refine ⟨hmain, ?_⟩
  rw [Option.isSome_iff_ne_none, ne_eq, hmain]
  push_neg
  simp

-- ─── Lemmas: stable id shape ────────────────────────────────────────────────

lemma sha256_length (msg : List ℕ) : (sha256 msg).length = 32 := rfl

lemma hexOfBytes_length (bs : List ℕ) : (hexOfBytes bs).length = 2 * bs.length := by
  induction bs with
  | nil => rfl
  | cons b tl ih =>
    show (byteHex b ++ hexOfBytes tl).length = 2 * (b :: tl).length
    rw [List.length_append, ih]
    simp [byteHex]
    omega

lemma hexOfBytes_mem {bs : List ℕ} {c : Char} (hc : c ∈ hexOfBytes bs) :
    c ∈ HEX_LOWER := by
  rw [hexOfBytes, List.mem_flatMap] at hc
  obtain ⟨b, _, hcb⟩ := hc
  have hdig : ∀ n < 16, hexDigit n ∈ HEX_LOWER := by decide
  have h16 : ∀ n : ℕ, n % 16 < 16 := fun n => Nat.mod_lt _ (by norm_num)
  simp only [byteHex, List.mem_cons, List.not_mem_nil, or_false] at hcb
  rcases hcb with h | h
  · exact h ▸ hdig _ (h16 _)
  · exact h ▸ hdig _ (h16 _)

-- ─── Claim C7 ───────────────────────────────────────────────────────────────

/-- C7: generateStableId is deterministic up to letter case and surrounding
whitespace of both inputs, and every id it returns is QUX- followed by exactly
8 lowercase hexadecimal characters taken from the SHA-256 digest of the
lowercased trimmed title, a colon, and the lowercased trimmed discriminator. -/
theorem generateStableId_det_and_shape (t d t' d' : String)
    (ht : jsTrim (jsToLower t) = jsTrim (jsToLower t'))
    (hd : jsTrim (jsToLower d) = jsTrim (jsToLower d')) :
    generateStableId t d = generateStableId t' d'
    ∧ ∃ hx : List Char,
        generateStableId t d = "QUX-" ++ String.mk hx
        ∧ hx.length = 8
        ∧ (∀ c ∈ hx, c ∈ HEX_LOWER)
        ∧ hx = (hexOfBytes (sha256 (strBytes
            (jsTrim (jsToLower t) ++ ":" ++ jsTrim (jsToLower d))))).take 8 := by
  constructor
  · unfold generateStableId
    rw [ht, hd]
  · refine ⟨(hexOfBytes (sha256 (strBytes
      (jsTrim (jsToLower t) ++ ":" ++ jsTrim (jsToLower d))))).take 8, rfl, ?_, ?_, rfl⟩
    · rw [List.length_take, hexOfBytes_length, sha256_length]
      rfl
    · intro c hc
      exact hexOfBytes_mem (List.take_subset _ _ hc)

/-- Witness for C7 at concrete case and whitespace variants. -/
theorem generateStableId_det_and_shape_witness :
    generateStableId "Slow Loading " "Performance"
      = generateStableId " slow loading" "performance" :=
  (generateStableId_det_and_shape "Slow Loading " "Performance"
    " slow loading" "performance" (by decide) (by decide)).1

-- ─── Lemmas: weight accumulation ────────────────────────────────────────────

def issueWeight (i : SynIssue) : ℚ := SEVERITY_WEIGHT i.severity

lemma severity_weight_pos (sev : Severity) : 0 < SEVERITY_WEIGHT sev := by
  cases sev <;> norm_num [SEVERITY_WEIGHT]

lemma weightTotals_go (l : List SynIssue) (a b : ℚ) :
    l.foldl
      (fun acc i =>
        let w := SEVERITY_WEIGHT i.severity
        (acc.1 + w, if isTestInfra i then acc.2 + w else acc.2))
      (a, b)
    = (a + (l.map issueWeight).sum, b + ((l.filter isTestInfra).map issueWeight).sum) := by
  induction l generalizing a b with
  | nil => simp
  | cons i tl ih =>
    show List.foldl _
      (a + SEVERITY_WEIGHT i.severity,
        if isTestInfra i then b + SEVERITY_WEIGHT i.severity else b) tl = _
    rw [ih]
    by_cases hti : isTestInfra i
    · rw [List.filter_cons_of_pos hti]
      simp only [hti, if_true, List.map_cons, List.sum_cons, Prod.mk.injEq, issueWeight]
      constructor <;> ring
    · rw [List.filter_cons_of_neg (by simpa using hti)]
      simp only [hti, if_false, List.map_cons, List.sum_cons, Prod.mk.injEq, issueWeight]
      constructor
      · ring
      · simp

lemma weightTotals_eq (l : List SynIssue) :
    weightTotals l = ((l.map issueWeight).sum, ((l.filter isTestInfra).map issueWeight).sum) := by
  rw [weightTotals, weightTotals_go]
  simp

lemma weights_sum_nonneg (l : List SynIssue) : 0 ≤ (l.map issueWeight).sum := by
  apply List.sum_nonneg
  intro x hx
  obtain ⟨i, _, rfl⟩ := List.mem_map.mp hx
  exact le_of_lt (severity_weight_pos i.severity)

lemma filter_weight_le (l : List SynIssue) :
    ((l.filter isTestInfra).map issueWeight).sum ≤ (l.map issueWeight).sum := by
  induction l with
  | nil => simp
  | cons i tl ih =>
    by_cases hti : isTestInfra i
    · rw [List.filter_cons_of_pos hti]
      simp only [List.map_cons, List.sum_cons]
      linarith
    · rw [List.filter_cons_of_neg (by simpa using hti)]
      simp only [List.map_cons, List.sum_cons]
      have hw : 0 ≤ issueWeight i := le_of_lt (severity_weight_pos i.severity)
      linarith

lemma total_weight_pos {l : List SynIssue} {i : SynIssue} (hmem : i ∈ l) :
    0 < (l.map issueWeight).sum := by
  have hw : issueWeight i ∈ l.map issueWeight := List.mem_map_of_mem issueWeight hmem
  have hle : issueWeight i ≤ (l.map issueWeight).sum := by
    apply List.single_le_sum _ _ hw
    intro x hx
    obtain ⟨j, _, rfl⟩ := List.mem_map.mp hx
    exact le_of_lt (severity_weight_pos j.severity)
  exact lt_of_lt_of_le (severity_weight_pos i.severity) hle

-- ─── Claim C2 (corrected) ───────────────────────────────────────────────────

/-- The snapshot refuting C2 as stated: three P0 app issues, one P2 test-infra
issue, raw score 90.01. -/
def c2Cex : Synthesis :=
  { consensusIssues :=
      [⟨"QUX-a1", "App bug one", .P0, some "Function", some .app⟩,
       ⟨"QUX-a2", "App bug two", .P0, some "Function", some .app⟩,
       ⟨"QUX-a3", "App bug three", .P0, some "Function", some .app⟩,
       ⟨"QUX-t1", "Test env issue", .P2, some "Function", some .testInfra⟩],
    videoOnlyIssues := [], modelUniqueIssues := [],
    overallAssessment := { uxScore := 90.01, launchReadiness := "ready" } }

/-- Counterexample to C2 as stated: on c2Cex a test-infra issue exists and
pointsLost is positive, yet the adjusted score 90 is strictly below the
normalized raw score 90.01 — rounding can dip below a fractional raw score. -/
theorem calculateAdjustedScore_below_raw_cex :
    (∃ i ∈ allIssuesOf c2Cex, i.source = some .testInfra)
    ∧ 0 < 100 - normalizeScore c2Cex.overallAssessment.uxScore
    ∧ calculateAdjustedScore c2Cex = some 90
    ∧ (90 : ℚ) < normalizeScore c2Cex.overallAssessment.uxScore := by
  refine ⟨by decide, by decide, by decide, by decide⟩

/-- C2 as amended: with a test-infra issue present, positive pointsLost, and
an integer normalized raw score, the adjusted score is a number between the
raw score and 100. -/
theorem calculateAdjustedScore_bounds (s : Synthesis) (k : ℤ)
    (hti : ∃ i ∈ allIssuesOf s, i.source = some .testInfra)
    (hraw : normalizeScore s.overallAssessment.uxScore = (k : ℚ))
    (hlost : 0 < 100 - normalizeScore s.overallAssessment.uxScore) :
    ∃ v : ℚ, calculateAdjustedScore s = some v
      ∧ normalizeScore s.overallAssessment.uxScore ≤ v ∧ v ≤ 100 := by
  obtain ⟨i, hmem, hsrc⟩ := hti
  have hif : isTestInfra i = true := by simp [isTestInfra, hsrc]
  have hfilter_mem : i ∈ (allIssuesOf s).filter isTestInfra :=
    List.mem_filter.mpr ⟨hmem, hif⟩
  have hlen : ¬((allIssuesOf s).filter isTestInfra).length = 0 := by
    intro h
    rw [List.length_eq_zero] at h
    rw [h] at hfilter_mem
    exact List.not_mem_nil i hfilter_mem
  set raw := normalizeScore s.overallAssessment.uxScore with hraw_def
  have hlost' : ¬(100 - raw ≤ 0) := not_le.mpr hlost
  set T := ((allIssuesOf s).map issueWeight).sum with hT_def
  set I := (((allIssuesOf s).filter isTestInfra).map issueWeight).sum with hI_def
  have hT_pos : 0 < T := total_weight_pos hmem
  have hI_nonneg : 0 ≤ I := by
    rw [hI_def]
    apply List.sum_nonneg
    intro x hx
    obtain ⟨j, _, rfl⟩ := List.mem_map.mp hx
    exact le_of_lt (severity_weight_pos j.severity)
  have hIT : I ≤ T := filter_weight_le (allIssuesOf s)
  have hT_ne : ¬(T = 0) := ne_of_gt hT_pos
  simp only [calculateAdjustedScore, weightTotals_eq, ← hraw_def, ← hT_def, ← hI_def,
    if_neg hlen, if_neg hlost', if_neg hT_ne]
  refine ⟨_, rfl, ?_, ?_⟩
  · -- raw ≤ round (100 - adjusted points lost)
    have hA_le : (T - I) + I * TEST_INFRA_DISCOUNT ≤ T := by
      have : (0 : ℚ) ≤ I * (3 / 4) := by positivity
      norm_num [TEST_INFRA_DISCOUNT]
      linarith
    have hratio_le_one : ((T - I) + I * TEST_INFRA_DISCOUNT) / T ≤ 1 :=
      (div_le_one hT_pos).mpr hA_le
    have hlost_nonneg : (0 : ℚ) ≤ 100 - raw := le_of_lt hlost
    have hadj_le : (100 - raw) * (((T - I) + I * TEST_INFRA_DISCOUNT) / T) ≤ 100 - raw :=
      mul_le_of_le_one_right hlost_nonneg hratio_le_one
    have hx : raw ≤ 100 - (100 - raw) * (((T - I) + I * TEST_INFRA_DISCOUNT) / T) := by
      linarith
    have hraw' : raw = (k : ℚ) := by rw [hraw_def]; exact hraw
    rw [hraw'] at hx ⊢
    simp only [jsRound]
    have hk : (k : ℚ) ≤
        (100 - (100 - (k : ℚ)) * (((T - I) + I * TEST_INFRA_DISCOUNT) / T)) + 1 / 2 := by
      linarith
    exact_mod_cast Int.le_floor.mpr hk
  · -- round (100 - adjusted points lost) ≤ 100
    have hA_pos : 0 < (T - I) + I * TEST_INFRA_DISCOUNT := by
      have h34 : I * (3 / 4) ≤ T * (3 / 4) := by
        apply mul_le_mul_of_nonneg_right hIT
        norm_num
      norm_num [TEST_INFRA_DISCOUNT]
      linarith
    have hratio_pos : 0 < ((T - I) + I * TEST_INFRA_DISCOUNT) / T :=
      div_pos hA_pos hT_pos
    have hadj_pos : 0 < (100 - raw) * (((T - I) + I * TEST_INFRA_DISCOUNT) / T) :=
      mul_pos hlost hratio_pos
    have hlt : (100 - (100 - raw) * (((T - I) + I * TEST_INFRA_DISCOUNT) / T)) + 1 / 2
        < ((101 : ℤ) : ℚ) := by
      push_cast
      linarith
    have hfloor : jsRound (100 - (100 - raw) * (((T - I) + I * TEST_INFRA_DISCOUNT) / T)) < 101 := by
      simp only [jsRound]
      exact Int.floor_lt.mpr hlt
    have : jsRound (100 - (100 - raw) * (((T - I) + I * TEST_INFRA_DISCOUNT) / T)) ≤ 100 := by
      omega
    exact_mod_cast this

/-- The snapshot witnessing the amended C2: one P0 app and one P0 test-infra
issue at raw score 50. -/
def c2Wit : Synthesis :=
  { consensusIssues :=
      [⟨"QUX-a", "Real bug", .P0, some "Function", some .app⟩,
       ⟨"QUX-b", "Test env issue", .P0, some "Function", some .testInfra⟩],
    videoOnlyIssues := [], modelUniqueIssues := [],
    overallAssessment := { uxScore := 50, launchReadiness := "r" } }

/-- Witness for the amended C2 on c2Wit. -/
theorem calculateAdjustedScore_bounds_witness :
    ∃ v : ℚ, calculateAdjustedScore c2Wit = some v
      ∧ normalizeScore c2Wit.overallAssessment.uxScore ≤ v ∧ v ≤ 100 :=
  calculateAdjustedScore_bounds c2Wit 50 (by decide) (by decide) (by decide)

-- ─── Lemmas: index-set bookkeeping ──────────────────────────────────────────

lemma foldl_inv {α β : Type} {P : β → Prop} {f : β → α → β} :
    ∀ (l : List α) (init : β), P init → (∀ st x, x ∈ l → P st → P (f st x)) →
      P (l.foldl f init)
  | [], init, h, _ => h
  | x :: tl, init, h, hstep =>
    foldl_inv tl (f init x) (hstep init x (List.mem_cons_self x tl) h)
      (fun st y hy => hstep st y (List.mem_cons_of_mem x hy))

/-- Removing a fresh index i from the not-consumed filter of a keyed list with
distinct keys extracts exactly the entry at i. -/
lemma filter_erase_perm {α : Type} {l : List (ℕ × α)} (hnd : (l.map Prod.fst).Nodup)
    {i : ℕ} {x : α} (hmem : (i, x) ∈ l) (S : Finset ℕ) (hni : i ∉ S) :
    (l.filter (fun p => decide (p.1 ∉ S))).Perm
      ((i, x) :: l.filter (fun p => decide (p.1 ∉ insert i S))) := by
  induction l with
  | nil => cases hmem
  | cons hd tl ih =>
    rw [List.map_cons, List.nodup_cons] at hnd
    obtain ⟨hhd, hndtl⟩ := hnd
    rcases List.mem_cons.mp hmem with heq | htl
    · subst heq
      have hsame : tl.filter (fun p => decide (p.1 ∉ S))
          = tl.filter (fun p => decide (p.1 ∉ insert i S)) := by
        apply List.filter_congr
        intro p hp
        have hpne : p.1 ≠ i := by
          intro hcontra
          apply hhd
          have hmf : p.1 ∈ tl.map Prod.fst := List.mem_map_of_mem Prod.fst hp
          simpa [hcontra] using hmf
        simp [Finset.mem_insert, hpne]
      have hL : ((i, x) :: tl).filter (fun p => decide (p.1 ∉ S))
          = (i, x) :: tl.filter (fun p => decide (p.1 ∉ S)) := by
        simp [List.filter_cons, hni]
      have hR : ((i, x) :: tl).filter (fun p => decide (p.1 ∉ insert i S))
          = tl.filter (fun p => decide (p.1 ∉ insert i S)) := by
        simp [List.filter_cons]
      rw [hL, hR, hsame]
    · have hine : hd.1 ≠ i := by
        intro hcontra
        have hmemf : i ∈ tl.map Prod.fst := by
          have := List.mem_map_of_mem Prod.fst htl
          simpa using this
        exact hhd (hcontra ▸ hmemf)
      by_cases hS : hd.1 ∈ S
      · have hL : (hd :: tl).filter (fun p => decide (p.1 ∉ S))
            = tl.filter (fun p => decide (p.1 ∉ S)) := by
          simp [List.filter_cons, hS]
        have hR : (hd :: tl).filter (fun p => decide (p.1 ∉ insert i S))
            = tl.filter (fun p => decide (p.1 ∉ insert i S)) := by
          simp [List.filter_cons, Finset.mem_insert, hS]
        rw [hL, hR]
        exact ih hndtl htl
      · have hL : (hd :: tl).filter (fun p => decide (p.1 ∉ S))
            = hd :: tl.filter (fun p => decide (p.1 ∉ S)) := by
          simp [List.filter_cons, hS]
        have hR : (hd :: tl).filter (fun p => decide (p.1 ∉ insert i S))
            = hd :: tl.filter (fun p => decide (p.1 ∉ insert i S)) := by
          simp [List.filter_cons, Finset.mem_insert, hS, hine]
        rw [hL, hR]
        exact ((ih hndtl htl).cons hd).trans (List.Perm.swap (i, x) hd _)

lemma enum_fst_nodup {α : Type} (xs : List α) : (xs.enum.map Prod.fst).Nodup := by
  rw [List.enum_map_fst]
  exact List.nodup_range xs.length

lemma snd_mem_of_mem_enum {α : Type} {xs : List α} {p : ℕ × α} (h : p ∈ xs.enum) :
    p.2 ∈ xs := by
  have := List.mem_map_of_mem Prod.snd h
  rwa [List.enum_map_snd] at this

/-- The not-yet-consumed side of a selection: the selected items and the items
whose index is not consumed are together a permutation of the whole list. -/
def SideInv (xs : List CompareIssue) (S : Finset ℕ) (sel : List CompareIssue) : Prop :=
  (sel ++ (xs.enum.filter (fun p => decide (p.1 ∉ S))).map Prod.snd).Perm xs

lemma sideInv_init (xs : List CompareIssue) : SideInv xs ∅ [] := by
  unfold SideInv
  have : xs.enum.filter (fun p => decide (p.1 ∉ (∅ : Finset ℕ))) = xs.enum := by
    apply List.filter_eq_self.mpr
    intro p _
    simp
  rw [List.nil_append, this, List.enum_map_snd]

lemma sideInv_insert {xs : List CompareIssue} {S : Finset ℕ} {sel : List CompareIssue}
    {i : ℕ} {x : CompareIssue} (h : SideInv xs S sel)
    (hmem : (i, x) ∈ xs.enum) (hni : i ∉ S) :
    SideInv xs (insert i S) (sel ++ [x]) := by
  unfold SideInv at h ⊢
  have hperm := filter_erase_perm (enum_fst_nodup xs) hmem S hni
  have hmap := hperm.map Prod.snd
  rw [List.map_cons] at hmap
  have h1 : (sel ++ [x]) ++ (xs.enum.filter (fun p => decide (p.1 ∉ insert i S))).map Prod.snd
      = sel ++ (x :: (xs.enum.filter (fun p => decide (p.1 ∉ insert i S))).map Prod.snd) := by
    rw [List.append_assoc, List.singleton_append]
  rw [h1]
  exact (List.Perm.append_left sel hmap.symm).trans h

-- ─── Lemmas: stable sort is a permutation ───────────────────────────────────

lemma insertBy_perm {α : Type} (lt : α → α → Bool) (x : α) (l : List α) :
    (insertBy lt x l).Perm (x :: l) := by
  induction l with
  | nil => exact List.Perm.refl _
  | cons y ys ih =>
    unfold insertBy
    by_cases h : lt y x
    · rw [if_pos h]
      exact (ih.cons y).trans (List.Perm.swap x y ys)
    · rw [if_neg h]

lemma sortByDescSimilarity_perm (l : List Candidate) :
    (sortByDescSimilarity l).Perm l := by
  induction l with
  | nil => exact List.Perm.refl _
  | cons x xs ih =>
    unfold sortByDescSimilarity at ih ⊢
    rw [List.foldr_cons]
    exact (insertBy_perm _ x _).trans (ih.cons x)

lemma mem_sortByDescSimilarity {l : List Candidate} {cand : Candidate}
    (h : cand ∈ sortByDescSimilarity l) : cand ∈ l :=
  (sortByDescSimilarity_perm l).mem_iff.mp h

-- ─── Lemmas: candidate well-formedness ──────────────────────────────────────

/-- What membership in the pass-2 candidate list guarantees. -/
def candOK (bs cs : List (ℕ × CompareIssue)) (cand : Candidate) : Prop :=
  (cand.bi, cand.b) ∈ bs ∧ (cand.ci, cand.c) ∈ cs
  ∧ cand.similarity = jaccardSimilarity cand.b.title cand.c.title
  ∧ (0.6 < cand.similarity
     ∨ (cand.b.category.isSome ∧ cand.b.category = cand.c.category
        ∧ cand.b.severity = cand.c.severity ∧ 0.4 < cand.similarity))

lemma pass2Candidates_ok {bs cs : List (ℕ × CompareIssue)} {st : MatchState}
    {cand : Candidate} (h : cand ∈ pass2Candidates bs cs st) : candOK bs cs cand := by
  unfold pass2Candidates at h
  rw [List.mem_flatMap] at h
  obtain ⟨p, hpmem, hp⟩ := h
  split at hp
  · cases hp
  · rw [List.mem_filterMap] at hp
    obtain ⟨q, hqmem, hq⟩ := hp
    split at hq
    · cases hq
    · simp only [] at hq
      split at hq
      next hcond =>
        injection hq with hq'
        subst hq'
        refine ⟨?_, ?_, ?_, ?_⟩
        · dsimp only
          rw [Prod.mk.eta]
          exact hpmem
        · dsimp only
          rw [Prod.mk.eta]
          exact hqmem
        · dsimp only
        · dsimp only
          exact hcond.imp id (fun h => ⟨h.1.1, h.1.2, h.2.1, h.2.2⟩)
      next => cases hq

/-- What membership in the variant candidate list guarantees. -/
def vcandOK (uc ub : List (ℕ × CompareIssue)) (thr : ℚ) (cand : Candidate) : Prop :=
  (cand.bi, cand.b) ∈ ub ∧ (cand.ci, cand.c) ∈ uc
  ∧ cand.similarity = jaccardSimilarity cand.c.title cand.b.title
  ∧ thr ≤ cand.similarity

lemma variantCandidates_ok {uc ub : List (ℕ × CompareIssue)} {thr : ℚ}
    {cand : Candidate} (h : cand ∈ variantCandidates uc ub thr) :
    vcandOK uc ub thr cand := by
  unfold variantCandidates at h
  rw [List.mem_flatMap] at h
  obtain ⟨q, hqmem, hq⟩ := h
  rw [List.mem_filterMap] at hq
  obtain ⟨p, hpmem, hp⟩ := hq
  simp only [] at hp
  split at hp
  next hcond =>
    injection hp with hp'
    subst hp'
    refine ⟨?_, ?_, ?_, ?_⟩
    · dsimp only
      rw [Prod.mk.eta]
      exact hpmem
    · dsimp only
      rw [Prod.mk.eta]
      exact hqmem
    · dsimp only
    · dsimp only
      exact hcond
  next => cases hp

-- ─── Lemmas: the matchIssues state invariant ────────────────────────────────

/-- What every pair in the matched list satisfies: both sides come from the
input lists, exact-id pairs share a QUX- prefixed id and carry no confidence,
fuzzy pairs clear the similarity gate and carry the rounded confidence. -/
def pairOK (bs cs : List CompareIssue) (m : MatchedPair) : Prop :=
  m.baseline ∈ bs ∧ m.current ∈ cs
  ∧ (m.method = .exactId →
      ("QUX-".data.isPrefixOf m.baseline.id.data) = true
      ∧ m.current.id = m.baseline.id ∧ m.confidence = none)
  ∧ (m.method = .fuzzy →
      m.confidence = some (jsRound (jaccardSimilarity m.baseline.title m.current.title * 100))
      ∧ (0.6 < jaccardSimilarity m.baseline.title m.current.title
         ∨ (m.baseline.category.isSome ∧ m.baseline.category = m.current.category
            ∧ m.baseline.severity = m.current.severity
            ∧ 0.4 < jaccardSimilarity m.baseline.title m.current.title)))

/-- The running invariant of both matching passes. -/
def MInv (bs cs : List CompareIssue) (st : MatchState) : Prop :=
  SideInv bs st.mB (st.matched.map (fun m => m.baseline))
  ∧ SideInv cs st.mC (st.matched.map (fun m => m.current))
  ∧ ∀ m ∈ st.matched, pairOK bs cs m

lemma mInv_init (bs cs : List CompareIssue) : MInv bs cs ⟨∅, ∅, []⟩ :=
  ⟨sideInv_init bs, sideInv_init cs, fun m hm => absurd hm (List.not_mem_nil m)⟩

lemma pairOK_append {bs cs : List CompareIssue} {l : List MatchedPair} {m : MatchedPair}
    (hl : ∀ x ∈ l, pairOK bs cs x) (hm : pairOK bs cs m) :
    ∀ x ∈ l ++ [m], pairOK bs cs x := by
  intro x hx
  rcases List.mem_append.mp hx with h | h
  · exact hl x h
  · rw [List.mem_singleton] at h
    exact h ▸ hm

lemma pass1Step_inv {bs cs : List CompareIssue} {st : MatchState} {p : ℕ × CompareIssue}
    (hp : p ∈ bs.enum) (hinv : MInv bs cs st) :
    MInv bs cs (pass1Step cs.enum st p) := by
  obtain ⟨hb, hc, hok⟩ := hinv
  unfold pass1Step
  split
  · exact ⟨hb, hc, hok⟩
  next hB =>
    split
    · exact ⟨hb, hc, hok⟩
    next hQ =>
      cases hfind : cs.enum.find? (fun q => decide (q.1 ∉ st.mC) && decide (q.2.id = p.2.id)) with
      | none => exact ⟨hb, hc, hok⟩
      | some q =>
        have hqmem : q ∈ cs.enum := List.mem_of_find?_eq_some hfind
        have hpred := List.find?_some hfind
        rw [Bool.and_eq_true, decide_eq_true_eq, decide_eq_true_eq] at hpred
        obtain ⟨hqC, hqid⟩ := hpred
        have hQ' : ("QUX-".data.isPrefixOf p.2.id.data) = true := by
          revert hQ
          cases ("QUX-".data.isPrefixOf p.2.id.data) <;> simp
        refine ⟨?_, ?_, ?_⟩
        · show SideInv bs (insert p.1 st.mB)
            ((st.matched ++ [(⟨p.2, q.2, .exactId, none⟩ : MatchedPair)]).map
              (fun m => m.baseline))
          rw [List.map_append]
          exact sideInv_insert hb (by simpa using hp) hB
        · show SideInv cs (insert q.1 st.mC)
            ((st.matched ++ [(⟨p.2, q.2, .exactId, none⟩ : MatchedPair)]).map
              (fun m => m.current))
          rw [List.map_append]
          have hqmem' : (q.1, q.2) ∈ cs.enum := by simpa using hqmem
          exact sideInv_insert hc hqmem' hqC
        · apply pairOK_append hok
          refine ⟨snd_mem_of_mem_enum hp, snd_mem_of_mem_enum hqmem, ?_, ?_⟩
          · intro _
            exact ⟨hQ', hqid, rfl⟩
          · intro hcontra
            cases hcontra

lemma greedyStep_inv {bs cs : List CompareIssue} {st : MatchState} {cand : Candidate}
    (hok : candOK bs.enum cs.enum cand) (hinv : MInv bs cs st) :
    MInv bs cs (greedyStep st cand) := by
  obtain ⟨hb, hc, hpairs⟩ := hinv
  obtain ⟨hbm, hcm, hsim, hgate⟩ := hok
  unfold greedyStep
  split
  · exact ⟨hb, hc, hpairs⟩
  next hguard =>
    push_neg at hguard
    obtain ⟨hB, hC⟩ := hguard
    refine ⟨?_, ?_, ?_⟩
    · show SideInv bs (insert cand.bi st.mB)
        ((st.matched ++ [(⟨cand.b, cand.c, .fuzzy,
          some (jsRound (cand.similarity * 100))⟩ : MatchedPair)]).map (fun m => m.baseline))
      rw [List.map_append]
      exact sideInv_insert hb hbm hB
    · show SideInv cs (insert cand.ci st.mC)
        ((st.matched ++ [(⟨cand.b, cand.c, .fuzzy,
          some (jsRound (cand.similarity * 100))⟩ : MatchedPair)]).map (fun m => m.current))
      rw [List.map_append]
      exact sideInv_insert hc hcm hC
    · apply pairOK_append hpairs
      refine ⟨snd_mem_of_mem_enum hbm, snd_mem_of_mem_enum hcm, ?_, ?_⟩
      · intro hcontra
        cases hcontra
      · intro _
        constructor
        · show some (jsRound (cand.similarity * 100)) = _
          rw [hsim]
        · show 0.6 < jaccardSimilarity cand.b.title cand.c.title
            ∨ (cand.b.category.isSome ∧ cand.b.category = cand.c.category
               ∧ cand.b.severity = cand.c.severity
               ∧ 0.4 < jaccardSimilarity cand.b.title cand.c.title)
          rw [← hsim]
          exact hgate

lemma pass1State_inv (bs cs : List CompareIssue) : MInv bs cs (pass1State bs cs) := by
  unfold pass1State
  exact foldl_inv bs.enum ⟨∅, ∅, []⟩ (mInv_init bs cs)
    (fun st p hp hinv => pass1Step_inv hp hinv)

lemma matchState_inv (bs cs : List CompareIssue) : MInv bs cs (matchState bs cs) := by
  unfold matchState
  apply foldl_inv _ _ (pass1State_inv bs cs)
  intro st cand hcand hinv
  exact greedyStep_inv (pass2Candidates_ok (mem_sortByDescSimilarity hcand)) hinv

/-- Conservation at the matchIssues level: the matched sides together with the
unmatched leftovers are a permutation of each input list. -/
lemma matchIssues_conservation (bs cs : List CompareIssue) :
    (((matchIssues bs cs).matched.map (fun m => m.baseline)
        ++ (matchIssues bs cs).unmatchedBaseline).Perm bs)
    ∧ (((matchIssues bs cs).matched.map (fun m => m.current)
        ++ (matchIssues bs cs).unmatchedCurrent).Perm cs) :=
  ⟨(matchState_inv bs cs).1, (matchState_inv bs cs).2.1⟩

lemma matchIssues_pairOK {bs cs : List CompareIssue} {m : MatchedPair}
    (hm : m ∈ (matchIssues bs cs).matched) : pairOK bs cs m :=
  (matchState_inv bs cs).2.2 m hm

-- ─── Lemmas: the variant-pass invariant ─────────────────────────────────────

/-- The running invariant of the variant pass. -/
def VInv (ub uc : List CompareIssue) (st : VariantState) : Prop :=
  SideInv ub st.vB (st.variants.map (fun v => v.similarTo))
  ∧ SideInv uc st.vC (st.variants.map (fun v => v.issue))

lemma variantStep_inv {ub uc : List CompareIssue} {thr : ℚ} {st : VariantState}
    {cand : Candidate} (hok : vcandOK uc.enum ub.enum thr cand) (hinv : VInv ub uc st) :
    VInv ub uc (variantStep st cand) := by
  obtain ⟨hb, hc⟩ := hinv
  obtain ⟨hbm, hcm, _, _⟩ := hok
  unfold variantStep
  split
  · exact ⟨hb, hc⟩
  next hguard =>
    push_neg at hguard
    obtain ⟨hB, hC⟩ := hguard
    constructor
    · show SideInv ub (insert cand.bi st.vB)
        ((st.variants ++ [(⟨cand.c, cand.b, jsRound (cand.similarity * 100)⟩ :
          PersistingVariant)]).map (fun v => v.similarTo))
      rw [List.map_append]
      exact sideInv_insert hb hbm hB
    · show SideInv uc (insert cand.ci st.vC)
        ((st.variants ++ [(⟨cand.c, cand.b, jsRound (cand.similarity * 100)⟩ :
          PersistingVariant)]).map (fun v => v.issue))
      rw [List.map_append]
      exact sideInv_insert hc hcm hC

lemma variantState_inv (uc ub : List CompareIssue) (thr : ℚ) :
    VInv ub uc (variantState uc ub thr) := by
  unfold variantState
  apply foldl_inv _ _ ⟨sideInv_init ub, sideInv_init uc⟩
  intro st cand hcand hinv
  exact variantStep_inv (variantCandidates_ok (mem_sortByDescSimilarity hcand)) hinv

-- ─── Lemmas: persisting/regressions accumulation ────────────────────────────

lemma buildPersisting_go (l : List MatchedPair) (acc : List PersistingIssue × List PersistingIssue) :
    l.foldl
      (fun acc m =>
        let entry := toPersisting m
        (acc.1 ++ [entry],
         if entry.severityChange = .regressed then acc.2 ++ [entry] else acc.2))
      acc
    = (acc.1 ++ l.map toPersisting,
       acc.2 ++ (l.map toPersisting).filter
        (fun e => decide (e.severityChange = .regressed))) := by
  induction l generalizing acc with
  | nil => simp
  | cons m tl ih =>
    show List.foldl _
      (acc.1 ++ [toPersisting m],
        if (toPersisting m).severityChange = .regressed then acc.2 ++ [toPersisting m]
        else acc.2) tl = _
    rw [ih]
    by_cases hreg : (toPersisting m).severityChange = .regressed
    · have hf : (List.map toPersisting (m :: tl)).filter
            (fun e => decide (e.severityChange = .regressed))
          = toPersisting m :: (List.map toPersisting tl).filter
            (fun e => decide (e.severityChange = .regressed)) := by
        simp [List.filter_cons, hreg]
      rw [if_pos hreg, hf]
      simp
    · have hf : (List.map toPersisting (m :: tl)).filter
            (fun e => decide (e.severityChange = .regressed))
          = (List.map toPersisting tl).filter
            (fun e => decide (e.severityChange = .regressed)) := by
        simp [List.filter_cons, hreg]
      rw [if_neg hreg, hf]
      simp

lemma buildPersisting_eq (l : List MatchedPair) :
    buildPersisting l = (l.map toPersisting,
      (l.map toPersisting).filter (fun e => decide (e.severityChange = .regressed))) := by
  rw [buildPersisting, buildPersisting_go]
  simp

lemma perm_compose {M1 V R BS UB : List CompareIssue}
    (h1 : (M1 ++ UB).Perm BS) (h2 : (V ++ R).Perm UB) : ((M1 ++ V) ++ R).Perm BS := by
  rw [List.append_assoc]
  exact (List.Perm.append_left M1 h2).trans h1

-- ─── Lemmas: compareSyntheses field characterizations ───────────────────────

lemma compareSyntheses_persisting_eq (b c : Synthesis) (i1 i2 : String)
    (o : Option CompareOptions) :
    (compareSyntheses b c i1 i2 o).persistingIssues
      = (buildPersisting (matchIssues (collectIssues b) (collectIssues c)).matched).1 := rfl

lemma compareSyntheses_regressions_eq (b c : Synthesis) (i1 i2 : String)
    (o : Option CompareOptions) :
    (compareSyntheses b c i1 i2 o).regressions
      = (buildPersisting (matchIssues (collectIssues b) (collectIssues c)).matched).2 := rfl

-- ─── Claim C1 ───────────────────────────────────────────────────────────────

/-- C1: conservation of issues across the comparison. Each matched pair of
matchIssues becomes exactly one persistingIssues entry, the matched baseline
sides together with the variant similarTo sides and resolvedIssues are a
permutation of the flattened baseline issues, and the matched current sides
together with the variant issue sides and newIssues are a permutation of the
flattened current issues — no issue is counted twice or dropped. -/
theorem compareSyntheses_buckets (baseline current : Synthesis)
    (baselineId currentId : String) (options : Option CompareOptions) :
    (compareSyntheses baseline current baselineId currentId options).persistingIssues
      = (matchIssues (collectIssues baseline) (collectIssues current)).matched.map toPersisting
    ∧ (((matchIssues (collectIssues baseline) (collectIssues current)).matched.map
          (fun m => m.baseline)
        ++ (compareSyntheses baseline current baselineId currentId
            options).persistingVariants.map (fun v => v.similarTo))
        ++ (compareSyntheses baseline current baselineId currentId options).resolvedIssues).Perm
        (collectIssues baseline)
    ∧ (((matchIssues (collectIssues baseline) (collectIssues current)).matched.map
          (fun m => m.current)
        ++ (compareSyntheses baseline current baselineId currentId
            options).persistingVariants.map (fun v => v.issue))
        ++ (compareSyntheses baseline current baselineId currentId options).newIssues).Perm
        (collectIssues current) := by
  refine ⟨?_, ?_, ?_⟩
  · rw [compareSyntheses_persisting_eq, buildPersisting_eq]
  · exact perm_compose
      (matchIssues_conservation (collectIssues baseline) (collectIssues current)).1
      (variantState_inv
        (matchIssues (collectIssues baseline) (collectIssues current)).unmatchedCurrent
        (matchIssues (collectIssues baseline) (collectIssues current)).unmatchedBaseline
        ((options.bind (fun x => x.variantThreshold)).getD 0.35)).1
  · exact perm_compose
      (matchIssues_conservation (collectIssues baseline) (collectIssues current)).2
      (variantState_inv
        (matchIssues (collectIssues baseline) (collectIssues current)).unmatchedCurrent
        (matchIssues (collectIssues baseline) (collectIssues current)).unmatchedBaseline
        ((options.bind (fun x => x.variantThreshold)).getD 0.35)).2

-- ─── Claim C3 ───────────────────────────────────────────────────────────────

/-- C3: every fuzzy match of matchIssues has similarity strictly above 0.4,
and when its similarity is at most 0.6 the baseline category is defined and
equal to the current category and the severities agree; so a pair with
disagreeing category or severity in the (0.4, 0.6] band, or any pair at or
below 0.4, is never fuzzy-matched. -/
theorem matchIssues_fuzzy_gate (bs cs : List CompareIssue) (m : MatchedPair)
    (hm : m ∈ (matchIssues bs cs).matched) (hfuzzy : m.method = MatchMethod.fuzzy) :
    0.4 < jaccardSimilarity m.baseline.title m.current.title
    ∧ (jaccardSimilarity m.baseline.title m.current.title ≤ 0.6 →
        m.baseline.category.isSome = true
        ∧ m.baseline.category = m.current.category
        ∧ m.baseline.severity = m.current.severity) := by
  have hgate := ((matchIssues_pairOK hm).2.2.2 hfuzzy).2
  constructor
  · rcases hgate with h | h
    · calc (0.4 : ℚ) < 0.6 := by norm_num
        _ < jaccardSimilarity m.baseline.title m.current.title := h
    · exact h.2.2.2
  · intro hle
    rcases hgate with h | h
    · exact absurd h (not_lt.mpr hle)
    · exact ⟨h.1, h.2.1, h.2.2.1⟩

-- ─── Claim C6 ───────────────────────────────────────────────────────────────

/-- C6: every matched pair is recorded in persistingIssues with the severity
change classified by the fixed ordinals P0=0, P1=1, P2=2 (improved when the
current ordinal is greater, regressed when smaller, unchanged when equal), and
regressions is exactly the subset of persistingIssues classified regressed;
in particular P2 to P0 is regressed, P0 to P1 is improved, and equal
severities are unchanged. -/
theorem compareSyntheses_severity_classification (baseline current : Synthesis)
    (baselineId currentId : String) (options : Option CompareOptions) :
    ((compareSyntheses baseline current baselineId currentId options).persistingIssues
      = (matchIssues (collectIssues baseline) (collectIssues current)).matched.map toPersisting)
    ∧ (∀ p ∈ (compareSyntheses baseline current baselineId currentId options).persistingIssues,
        p.severityChange =
          (if SEVERITY_ORDER p.baselineSeverity < SEVERITY_ORDER p.currentSeverity then
            SeverityChange.improved
           else if SEVERITY_ORDER p.currentSeverity < SEVERITY_ORDER p.baselineSeverity then
            SeverityChange.regressed
           else SeverityChange.unchanged))
    ∧ ((compareSyntheses baseline current baselineId currentId options).regressions
      = (compareSyntheses baseline current baselineId currentId options).persistingIssues.filter
          (fun p => decide (p.severityChange = SeverityChange.regressed)))
    ∧ compareSeverity .P2 .P0 = .regressed
    ∧ compareSeverity .P0 .P1 = .improved
    ∧ (∀ sev : Severity, compareSeverity sev sev = .unchanged) := by
  have hchar : (compareSyntheses baseline current baselineId currentId options).persistingIssues
      = (matchIssues (collectIssues baseline) (collectIssues current)).matched.map toPersisting := by
    rw [compareSyntheses_persisting_eq, buildPersisting_eq]
  refine ⟨hchar, ?_, ?_, rfl, rfl, fun sev => by cases sev <;> rfl⟩
  · intro p hp
    rw [hchar] at hp
    obtain ⟨m, _, rfl⟩ := List.mem_map.mp hp
    show compareSeverity m.baseline.severity m.current.severity = _
    rfl
  · rw [compareSyntheses_regressions_eq, buildPersisting_eq, hchar]

-- ─── Claim C10 ──────────────────────────────────────────────────────────────

lemma collectIssues_category_none {s : Synthesis} {i : CompareIssue}
    (hi : i ∈ collectIssues s) (ht : i.type ≠ IssueType.consensus) : i.category = none := by
  unfold collectIssues at hi
  rcases List.mem_append.mp hi with h | h
  · rcases List.mem_append.mp h with h' | h'
    · obtain ⟨j, _, rfl⟩ := List.mem_map.mp h'
      exact absurd rfl ht
    · obtain ⟨j, _, rfl⟩ := List.mem_map.mp h'
      rfl
  · obtain ⟨j, _, rfl⟩ := List.mem_map.mp h
    rfl

lemma collectIssues_category_some_consensus {s : Synthesis} {i : CompareIssue}
    (hi : i ∈ collectIssues s) {cat : String} (hc : i.category = some cat) :
    i.type = IssueType.consensus := by
  by_contra ht
  rw [collectIssues_category_none hi ht] at hc
  cases hc

/-- C10: collectIssues keeps a category only on consensus issues, so a fuzzy
match at or below the 0.6 threshold (which needs the relaxed 0.4 gate) can
only join two consensus issues with equal defined categories; a pair with a
video-only or model-unique side fuzzy-matches only above 0.6. -/
theorem collectIssues_relaxed_gate_consensus_only (baseline current : Synthesis)
    (m : MatchedPair)
    (hm : m ∈ (matchIssues (collectIssues baseline) (collectIssues current)).matched)
    (hfuzzy : m.method = MatchMethod.fuzzy)
    (hle : jaccardSimilarity m.baseline.title m.current.title ≤ 0.6) :
    (∀ i ∈ collectIssues baseline, i.type ≠ IssueType.consensus → i.category = none)
    ∧ m.baseline.type = IssueType.consensus
    ∧ m.current.type = IssueType.consensus
    ∧ ∃ cat, m.baseline.category = some cat ∧ m.current.category = some cat := by
  obtain ⟨hbmem, hcmem, _, hfz⟩ := matchIssues_pairOK hm
  obtain ⟨_, hgate⟩ := hfz hfuzzy
  rcases hgate with h | h
  · exact absurd h (not_lt.mpr hle)
  · obtain ⟨hsome, hcateq, _, _⟩ := h
    obtain ⟨cat, hcat⟩ := Option.isSome_iff_exists.mp hsome
    have hccat : m.current.category = some cat := by rw [← hcateq, hcat]
    exact ⟨fun i hi ht => collectIssues_category_none hi ht,
      collectIssues_category_some_consensus hbmem hcat,
      collectIssues_category_some_consensus hcmem hccat,
      cat, hcat, hccat⟩

-- ─── Claim C9 ───────────────────────────────────────────────────────────────

/-- C9: generateScoreContext returns the empty string — not the
"No meaningful changes between runs" literal and no clause — whenever
persistingVariants is empty, no resolved issue is a P0, the score delta is
nonnegative, and at least one of resolvedIssues, newIssues, regressions is
nonempty. -/
theorem generateScoreContext_empty (r : CompareResult)
    (hvar : r.persistingVariants = [])
    (hp0 : ∀ i ∈ r.resolvedIssues, i.severity ≠ Severity.P0)
    (hdelta : 0 ≤ r.scoreDelta)
    (hne : r.resolvedIssues ≠ [] ∨ r.newIssues ≠ [] ∨ r.regressions ≠ []) :
    generateScoreContext r = "" := by
  have h1 : ¬(r.resolvedIssues.length = 0 ∧ r.newIssues.length = 0
      ∧ r.persistingVariants.length = 0 ∧ r.regressions.length = 0) := by
    intro h
    rcases hne with h' | h' | h'
    · exact h' (List.length_eq_zero.mp h.1)
    · exact h' (List.length_eq_zero.mp h.2.1)
    · exact h' (List.length_eq_zero.mp h.2.2.2)
  have hfil : r.resolvedIssues.filter isP0 = [] := by
    apply List.filter_eq_nil_iff.mpr
    intro i hi
    simp [isP0, hp0 i hi]
  unfold generateScoreContext
  rw [if_neg h1]
  simp only []
  by_cases hpos : 0 < r.scoreDelta
  · rw [if_pos hpos, hfil]
    simp [hvar]
    rfl
  · rw [if_neg hpos, if_neg (not_lt.mpr hdelta)]
    simp [hvar]
    rfl

-- ─── Lemmas: pass-1 behaviour ───────────────────────────────────────────────

lemma keyed_nodup_inj {l : List (ℕ × CompareIssue)} (hnd : (l.map Prod.fst).Nodup)
    {j : ℕ} {x y : CompareIssue} (hx : (j, x) ∈ l) (hy : (j, y) ∈ l) : x = y := by
  induction l with
  | nil => cases hx
  | cons hd tl ih =>
    rw [List.map_cons, List.nodup_cons] at hnd
    rcases List.mem_cons.mp hx with hx' | hx' <;> rcases List.mem_cons.mp hy with hy' | hy'
    · exact ((Prod.mk.injEq _ _ _ _).mp (hx'.trans hy'.symm)).2
    · exfalso
      apply hnd.1
      rw [← hx']
      have hmf := List.mem_map_of_mem Prod.fst hy'
      simpa using hmf
    · exfalso
      apply hnd.1
      rw [← hy']
      have hmf := List.mem_map_of_mem Prod.fst hx'
      simpa using hmf
    · exact ih hnd.2 hx' hy'

lemma pass1Step_cases (cs' : List (ℕ × CompareIssue)) (st : MatchState)
    (p : ℕ × CompareIssue) :
    pass1Step cs' st p = st
    ∨ ∃ q, cs'.find? (fun q2 => decide (q2.1 ∉ st.mC) && decide (q2.2.id = p.2.id)) = some q
        ∧ pass1Step cs' st p =
          ⟨insert p.1 st.mB, insert q.1 st.mC,
            st.matched ++ [⟨p.2, q.2, .exactId, none⟩]⟩ := by
  unfold pass1Step
  split
  · exact Or.inl rfl
  · split
    · exact Or.inl rfl
    · cases hfind : cs'.find? (fun q2 => decide (q2.1 ∉ st.mC) && decide (q2.2.id = p.2.id)) with
      | none => exact Or.inl rfl
      | some q => exact Or.inr ⟨q, rfl, rfl⟩

lemma pass1Step_matched_mono {cs' : List (ℕ × CompareIssue)} {st : MatchState}
    {p : ℕ × CompareIssue} {m : MatchedPair} (hm : m ∈ st.matched) :
    m ∈ (pass1Step cs' st p).matched := by
  rcases pass1Step_cases cs' st p with h | ⟨q, _, h⟩
  · rw [h]; exact hm
  · rw [h]; exact List.mem_append_left _ hm

lemma greedyStep_matched_mono {st : MatchState} {cand : Candidate} {m : MatchedPair}
    (hm : m ∈ st.matched) : m ∈ (greedyStep st cand).matched := by
  unfold greedyStep
  split
  · exact hm
  · exact List.mem_append_left _ hm

lemma pass1_finds {cs' : List (ℕ × CompareIssue)}
    (hndc : (cs'.map Prod.fst).Nodup) (b : CompareIssue)
    (hpre : ("QUX-".data.isPrefixOf b.id.data) = true)
    (hq : ∃ q ∈ cs', q.2.id = b.id) :
    ∀ (l : List (ℕ × CompareIssue)) (st : MatchState),
      (l.map Prod.fst).Nodup →
      (∃ p ∈ l, p.2.id = b.id) →
      (∀ p ∈ l, p.2.id = b.id → p.2 = b ∧ p.1 ∉ st.mB) →
      (∀ j cq, (j, cq) ∈ cs' → j ∈ st.mC → cq.id ≠ b.id) →
      ∃ m ∈ (l.foldl (pass1Step cs') st).matched,
        m.baseline = b ∧ m.current.id = b.id ∧ m.method = .exactId
        ∧ m.confidence = none := by
  intro l
  induction l with
  | nil =>
    intro st _ hex _ _
    obtain ⟨p, hp, _⟩ := hex
    cases hp
  | cons p tl ih =>
    intro st hnd hex hH hcons
    rw [List.map_cons, List.nodup_cons] at hnd
    rw [List.foldl_cons]
    by_cases hpid : p.2.id = b.id
    · obtain ⟨hpb, hpB⟩ := hH p (List.mem_cons_self p tl) hpid
      obtain ⟨q0, hq0mem, hq0id⟩ := hq
      have hq0C : q0.1 ∉ st.mC := fun hin =>
        hcons q0.1 q0.2 (by simpa using hq0mem) hin hq0id
      have hfindSome : (cs'.find?
          (fun q2 => decide (q2.1 ∉ st.mC) && decide (q2.2.id = p.2.id))).isSome := by
        apply List.find?_isSome.mpr
        refine ⟨q0, hq0mem, ?_⟩
        simp [hq0C, hq0id, hpid]
      cases hfind : cs'.find?
          (fun q2 => decide (q2.1 ∉ st.mC) && decide (q2.2.id = p.2.id)) with
      | none => rw [hfind] at hfindSome; cases hfindSome
      | some q' =>
        have hq'pred := List.find?_some hfind
        rw [Bool.and_eq_true, decide_eq_true_eq, decide_eq_true_eq] at hq'pred
        have hppre : ("QUX-".data.isPrefixOf p.2.id.data) = true := by
          rw [hpb]; exact hpre
        have hstep : pass1Step cs' st p =
            ⟨insert p.1 st.mB, insert q'.1 st.mC,
              st.matched ++ [⟨p.2, q'.2, .exactId, none⟩]⟩ := by
          unfold pass1Step
          rw [if_neg hpB, if_neg (by simp [hppre]), hfind]
        rw [hstep]
        have hmem0 : (⟨p.2, q'.2, .exactId, none⟩ : MatchedPair)
            ∈ (MatchState.mk (insert p.1 st.mB) (insert q'.1 st.mC)
              (st.matched ++ [⟨p.2, q'.2, .exactId, none⟩])).matched :=
          List.mem_append_right _ (List.mem_singleton.mpr rfl)
        have hfinal := foldl_inv (P := fun st2 : MatchState =>
            (⟨p.2, q'.2, .exactId, none⟩ : MatchedPair) ∈ st2.matched)
          (f := pass1Step cs')
          tl _ hmem0 (fun st2 x _ hm => pass1Step_matched_mono hm)
        refine ⟨⟨p.2, q'.2, .exactId, none⟩, hfinal, hpb, ?_, rfl, rfl⟩
        rw [hq'pred.2, hpid]
    · have hex' : ∃ p' ∈ tl, p'.2.id = b.id := by
        obtain ⟨p', hp'mem, hp'id⟩ := hex
        rcases List.mem_cons.mp hp'mem with h | h
        · exact absurd (h ▸ hp'id) hpid
        · exact ⟨p', h, hp'id⟩
      rcases pass1Step_cases cs' st p with hstep | ⟨q', hfind, hstep⟩
      · rw [hstep]
        exact ih st hnd.2 hex'
          (fun p' hp' hid => hH p' (List.mem_cons_of_mem p hp') hid) hcons
      · rw [hstep]
        have hq'pred := List.find?_some hfind
        rw [Bool.and_eq_true, decide_eq_true_eq, decide_eq_true_eq] at hq'pred
        have hq'mem : q' ∈ cs' := List.mem_of_find?_eq_some hfind
        apply ih _ hnd.2 hex'
        · intro p' hp' hid
          obtain ⟨hval, hB⟩ := hH p' (List.mem_cons_of_mem p hp') hid
          refine ⟨hval, ?_⟩
          rw [Finset.mem_insert]
          rintro (h | h)
          · apply hnd.1
            rw [← h]
            exact List.mem_map_of_mem Prod.fst hp'
          · exact hB h
        · intro j cq hjmem hjC
          rw [Finset.mem_insert] at hjC
          rcases hjC with h | h
          · have h2 : (j, q'.2) ∈ cs' := by
              rw [h, Prod.mk.eta]
              exact hq'mem
            have hcq : cq = q'.2 := keyed_nodup_inj hndc hjmem h2
            rw [hcq, hq'pred.2]
            exact hpid
          · exact hcons j cq hjmem h

-- ─── Claim C4 (corrected) ───────────────────────────────────────────────────

def c4b1 : CompareIssue :=
  ⟨"QUX-aaaaaaaa", "Login broken", .P0, .consensus, some .app, none⟩

def c4b2 : CompareIssue :=
  ⟨"QUX-aaaaaaaa", "Signup broken", .P1, .consensus, some .app, none⟩

def c4c1 : CompareIssue :=
  ⟨"QUX-aaaaaaaa", "Checkout broken", .P2, .consensus, some .app, none⟩

/-- Counterexample to C4 as stated: with two baseline issues sharing one
QUX- id and a single current issue carrying it, the second baseline issue has
a QUX- prefixed id and a current issue carries the identical id string, yet it
is not paired at all — first match wins and the current issue is consumed. -/
theorem matchIssues_exact_id_cex :
    ("QUX-".data.isPrefixOf c4b2.id.data) = true
    ∧ c4c1.id = c4b2.id
    ∧ (matchIssues [c4b1, c4b2] [c4c1]).matched
        = [⟨c4b1, c4c1, .exactId, none⟩]
    ∧ ¬∃ m ∈ (matchIssues [c4b1, c4b2] [c4c1]).matched,
        m.baseline = c4b2 ∧ m.method = MatchMethod.exactId := by
  refine ⟨by decide, by decide, by decide, by decide⟩

/-- C4 as amended: when a baseline issue b has a QUX- prefixed id, every
baseline issue sharing b's id equals b, and some current issue carries the
identical id string, pass 1 pairs b with a current issue bearing that id via
exact-id with no confidence, regardless of title divergence; and every
exact-id pair of matchIssues has a QUX- prefixed baseline id, an identical
current id, and no confidence (baseline ids lacking the prefix are skipped by
pass 1). -/
theorem matchIssues_exact_id (bs cs : List CompareIssue) (b : CompareIssue)
    (hmem : b ∈ bs)
    (hpre : ("QUX-".data.isPrefixOf b.id.data) = true)
    (huniq : ∀ b2 ∈ bs, b2.id = b.id → b2 = b)
    (hc : ∃ c ∈ cs, c.id = b.id) :
    (∃ m ∈ (matchIssues bs cs).matched,
        m.baseline = b ∧ m.current.id = b.id ∧ m.method = MatchMethod.exactId
        ∧ m.confidence = none)
    ∧ (∀ m ∈ (matchIssues bs cs).matched, m.method = MatchMethod.exactId →
        ("QUX-".data.isPrefixOf m.baseline.id.data) = true
        ∧ m.current.id = m.baseline.id ∧ m.confidence = none) := by
  constructor
  · have hq : ∃ q ∈ cs.enum, q.2.id = b.id := by
      obtain ⟨c, hcmem, hcid⟩ := hc
      have hmm : c ∈ cs.enum.map Prod.snd := by
        rw [List.enum_map_snd]; exact hcmem
      obtain ⟨q, hqmem, hq2⟩ := List.mem_map.mp hmm
      exact ⟨q, hqmem, by rw [hq2, hcid]⟩
    have hex : ∃ p ∈ bs.enum, p.2.id = b.id := by
      have hmm : b ∈ bs.enum.map Prod.snd := by
        rw [List.enum_map_snd]; exact hmem
      obtain ⟨p, hpmem, hp2⟩ := List.mem_map.mp hmm
      exact ⟨p, hpmem, by rw [hp2]⟩
    have hH : ∀ p ∈ bs.enum, p.2.id = b.id →
        p.2 = b ∧ p.1 ∉ (∅ : Finset ℕ) := by
      intro p hp hid
      exact ⟨huniq p.2 (snd_mem_of_mem_enum hp) hid, by simp⟩
    have hcons : ∀ (j : ℕ) (cq : CompareIssue), (j, cq) ∈ cs.enum →
        j ∈ (∅ : Finset ℕ) → cq.id ≠ b.id := by
      intro j cq _ hj
      simp at hj
    have hp1 := pass1_finds (enum_fst_nodup cs) b hpre hq bs.enum
      ⟨∅, ∅, []⟩ (enum_fst_nodup bs) hex hH hcons
    obtain ⟨m, hmm, hprops⟩ := hp1
    have hmm1 : m ∈ (pass1State bs cs).matched := by
      rw [pass1State]
      exact hmm
    have hmm2 : m ∈ (matchState bs cs).matched := by
      rw [matchState]
      exact foldl_inv (P := fun st2 : MatchState => m ∈ st2.matched)
        (f := greedyStep) _ _ hmm1 (fun st2 x _ hm => greedyStep_matched_mono hm)
    exact ⟨m, hmm2, hprops⟩
  · intro m hmm hexact
    exact (matchIssues_pairOK hmm).2.2.1 hexact

/-- Witness for the amended C4 on a one-issue exact match. -/
theorem matchIssues_exact_id_witness :
    ∃ m ∈ (matchIssues [c4b1] [c4c1]).matched,
      m.baseline = c4b1 ∧ m.current.id = c4b1.id ∧ m.method = MatchMethod.exactId
      ∧ m.confidence = none :=
  (matchIssues_exact_id [c4b1] [c4c1] c4b1 (by decide) (by decide)
    (by decide) (by decide)).1

-- ─── Witnesses for C3, C9, C10 ──────────────────────────────────────────────

def c3Base : CompareIssue :=
  ⟨"ISSUE-001", "alpha beta gamma", .P0, .consensus, some .app, some "functional"⟩

def c3Cur : CompareIssue :=
  ⟨"ISSUE-002", "alpha beta delta", .P0, .consensus, some .app, some "functional"⟩

/-- Witness for C3 on a fuzzy match with similarity 1/2 in the relaxed band. -/
theorem matchIssues_fuzzy_gate_witness :
    0.4 < jaccardSimilarity
        (⟨c3Base, c3Cur, .fuzzy, some 50⟩ : MatchedPair).baseline.title
        (⟨c3Base, c3Cur, .fuzzy, some 50⟩ : MatchedPair).current.title
    ∧ (jaccardSimilarity
        (⟨c3Base, c3Cur, .fuzzy, some 50⟩ : MatchedPair).baseline.title
        (⟨c3Base, c3Cur, .fuzzy, some 50⟩ : MatchedPair).current.title ≤ 0.6 →
        (⟨c3Base, c3Cur, .fuzzy, some 50⟩ : MatchedPair).baseline.category.isSome = true
        ∧ (⟨c3Base, c3Cur, .fuzzy, some 50⟩ : MatchedPair).baseline.category
            = (⟨c3Base, c3Cur, .fuzzy, some 50⟩ : MatchedPair).current.category
        ∧ (⟨c3Base, c3Cur, .fuzzy, some 50⟩ : MatchedPair).baseline.severity
            = (⟨c3Base, c3Cur, .fuzzy, some 50⟩ : MatchedPair).current.severity) :=
  matchIssues_fuzzy_gate [c3Base] [c3Cur] ⟨c3Base, c3Cur, .fuzzy, some 50⟩
    (by decide) (by decide)

def c10Base : Synthesis :=
  { consensusIssues := [⟨"ISSUE-001", "alpha beta gamma", .P0, some "functional", some .app⟩],
    videoOnlyIssues := [], modelUniqueIssues := [],
    overallAssessment := { uxScore := 75, launchReadiness := "ready" } }

def c10Cur : Synthesis :=
  { consensusIssues := [⟨"ISSUE-002", "alpha beta delta", .P0, some "functional", some .app⟩],
    videoOnlyIssues := [], modelUniqueIssues := [],
    overallAssessment := { uxScore := 75, launchReadiness := "ready" } }

def c10Pair : MatchedPair :=
  ⟨⟨"ISSUE-001", "alpha beta gamma", .P0, .consensus, some .app, some "functional"⟩,
   ⟨"ISSUE-002", "alpha beta delta", .P0, .consensus, some .app, some "functional"⟩,
   .fuzzy, some 50⟩

/-- Witness for C10 on a relaxed-band fuzzy match between consensus issues. -/
theorem collectIssues_relaxed_gate_witness :
    (∀ i ∈ collectIssues c10Base, i.type ≠ IssueType.consensus → i.category = none)
    ∧ c10Pair.baseline.type = IssueType.consensus
    ∧ c10Pair.current.type = IssueType.consensus
    ∧ ∃ cat, c10Pair.baseline.category = some cat ∧ c10Pair.current.category = some cat :=
  collectIssues_relaxed_gate_consensus_only c10Base c10Cur c10Pair
    (by decide) (by decide) (by decide)

def c9Result : CompareResult :=
  { scoreDelta := 0, baselineScore := 75, currentScore := 75, adjustedDelta := none,
    baselineReadiness := "ready", currentReadiness := "ready",
    resolvedIssues := [],
    newIssues := [⟨"QUX-n1", "New bug", .P1, .consensus, some .app, none⟩],
    persistingIssues := [], persistingVariants := [], regressions := [],
    scoreContext := "", severityDistribution := (⟨0, 0, 0⟩, ⟨0, 1, 0⟩) }

/-- Witness for C9: one new issue, zero delta, no variants — empty context. -/
theorem generateScoreContext_empty_witness : generateScoreContext c9Result = "" :=
  generateScoreContext_empty c9Result (by decide) (by decide) (by decide)
    (by decide)
